import Mathlib

set_option maxRecDepth 100000

/-!
Verification of the `rust_math` fixed-dimension vector library.

The library computes over IEEE-754 binary32 ("f32") values.  We model f32
exactly: a value is NaN, a signed infinity, or a finite signed dyadic
`(-1)^sign * mant * 2^exp`.  Finite values produced by the model are kept in
a canonical form (subnormal range `exp = -149, mant < 2^24`, or normal range
`2^23 ≤ mant < 2^24`, `-149 < exp ≤ 104`).  Arithmetic rounds to nearest,
ties to even, matching the Rust semantics of `f32` operations.
-/

namespace RustMath

/-- An IEEE-754 binary32 value: NaN, a signed infinity, or a finite dyadic
`(-1)^sign * mant * 2^exp` (sign `true` means negative). -/
inductive F32 where
  | nan : F32
  | inf : Bool → F32
  | fin : Bool → Nat → Int → F32
deriving DecidableEq, Repr

/-- Positive f32 zero. -/
def f32zero : F32 := .fin false 0 (-149)

/-- Round `p / q` (with `q > 0`) to the nearest natural number, ties to even. -/
def rndNat (p q : Nat) : Nat :=
  let d := p / q
  let r := p % q
  if q < 2 * r then d + 1
  else if 2 * r < q then d
  else if d % 2 = 0 then d else d + 1

/-- Fuel-driven binary logarithm (structural recursion, so the kernel can
evaluate it; with fuel `≥ n` it agrees with `Nat.log2 n`). -/
def log2Aux : Nat → Nat → Nat
  | 0, _ => 0
  | fuel + 1, n => if 2 ≤ n then log2Aux fuel (n / 2) + 1 else 0

/-- `⌊log₂ n⌋` (0 for `n ≤ 1`), computable by the kernel. -/
def klog2 (n : Nat) : Nat := log2Aux n n

/-- Fuel-driven Newton iteration for the integer square root. -/
def sqrtAux : Nat → Nat → Nat → Nat
  | 0, _, guess => guess
  | fuel + 1, n, guess =>
    let next := (guess + n / guess) / 2
    if next < guess then sqrtAux fuel n next else guess

/-- `⌊√n⌋`, computable by the kernel. -/
def ksqrt (n : Nat) : Nat := if n ≤ 1 then n else sqrtAux n n (n / 2)

/-- `⌊log₂ (p / q)⌋` for positive naturals `p, q`, as an integer. -/
def ratLog2 (p q : Nat) : Int :=
  let d : Int := (klog2 p : Int) - (klog2 q : Int)
  if q * 2 ^ klog2 p ≤ p * 2 ^ klog2 q then d else d - 1

/-- The exponent of the least significant bit of the rounded result for the
positive value `(p / q) * 2^e`: 23 bits below the leading bit in the normal
range, and the fixed subnormal position `-149` below it. -/
def targetExp (p q : Nat) (e : Int) : Int :=
  if -126 ≤ ratLog2 p q + e then ratLog2 p q + e - 23 else -149

/-- The mantissa of the rounded result: `(p / q) * 2^e / 2^targetExp`, rounded
to the nearest natural, ties to even. -/
def roundedMant (p q : Nat) (e : Int) : Nat :=
  let sh : Int := e - targetExp p q e
  if 0 ≤ sh then rndNat (p * 2 ^ sh.toNat) q else rndNat p (q * 2 ^ (-sh).toNat)

/-- Assemble a rounded mantissa and exponent into an f32, renormalising a
carry out of the binade (`n = 2^24`) and overflowing to infinity. -/
def mkFromN (s : Bool) (n : Nat) (T : Int) : F32 :=
  let n' : Nat := if n = 2 ^ 24 then 2 ^ 23 else n
  let T' : Int := if n = 2 ^ 24 then T + 1 else T
  if 104 < T' then .inf s else .fin s n' T'

/-- Round the real number `(-1)^s * (p / q) * 2^e` (with `q > 0`) to an f32,
nearest-even, with IEEE overflow to infinity and gradual underflow. -/
def mkRounded (s : Bool) (p q : Nat) (e : Int) : F32 :=
  if p = 0 then .fin s 0 (-149)
  else mkFromN s (roundedMant p q e) (targetExp p q e)

/-- IEEE negation (sign flip; NaN stays NaN). -/
def F32.neg : F32 → F32
  | .nan => .nan
  | .inf s => .inf (!s)
  | .fin s n e => .fin (!s) n e

/-- IEEE binary32 multiplication, round to nearest even. -/
def F32.mul : F32 → F32 → F32
  | .nan, _ => .nan
  | _, .nan => .nan
  | .inf s, .inf t => .inf (xor s t)
  | .inf s, .fin t n _ => if n = 0 then .nan else .inf (xor s t)
  | .fin s n _, .inf t => if n = 0 then .nan else .inf (xor s t)
  | .fin s m e, .fin t n f => mkRounded (xor s t) (m * n) 1 (e + f)

/-- The signed integer `(-1)^s * m * 2^k` (a mantissa aligned to a common
exponent). -/
def finScaled (s : Bool) (m : Nat) (k : Nat) : Int :=
  (if s then -(m : Int) else (m : Int)) * 2 ^ k

/-- Finish a finite addition: the exact signed sum `S` of the two aligned
mantissas, at exponent `T`; an exact zero takes the IEEE round-to-nearest
sign `s && t`. -/
def addS (S : Int) (T : Int) (s t : Bool) : F32 :=
  if S = 0 then .fin (s && t) 0 (-149)
  else mkRounded (decide (S < 0)) S.natAbs 1 T

/-- IEEE binary32 addition, round to nearest even. -/
def F32.add : F32 → F32 → F32
  | .nan, _ => .nan
  | _, .nan => .nan
  | .inf s, .inf t => if s = t then .inf s else .nan
  | .inf s, .fin _ _ _ => .inf s
  | .fin _ _ _, .inf t => .inf t
  | .fin s m e, .fin t n f =>
    addS (finScaled s m (e - min e f).toNat + finScaled t n (f - min e f).toNat)
      (min e f) s t

/-- IEEE binary32 subtraction. -/
def F32.sub (x y : F32) : F32 := F32.add x (F32.neg y)

/-- IEEE binary32 division, round to nearest even. -/
def F32.div : F32 → F32 → F32
  | .nan, _ => .nan
  | _, .nan => .nan
  | .inf _, .inf _ => .nan
  | .inf s, .fin t _ _ => .inf (xor s t)
  | .fin s _ _, .inf t => .fin (xor s t) 0 (-149)
  | .fin s m e, .fin t n f =>
    if n = 0 then (if m = 0 then .nan else .inf (xor s t))
    else if m = 0 then .fin (xor s t) 0 (-149)
    else mkRounded (xor s t) m n (e - f)

/-- IEEE binary32 square root, round to nearest even.  On a positive finite
input `n * 2^e` the exponent is first made even, then the correctly rounded
24-bit result is computed with integer square roots. -/
def F32.sqrt : F32 → F32
  | .nan => .nan
  | .inf s => if s then .nan else .inf false
  | .fin s n e =>
    if n = 0 then .fin s 0 (-149)
    else if s then .nan
    else
      let m : Nat := if e % 2 = 0 then n else 2 * n
      let e' : Int := if e % 2 = 0 then e else e - 1
      let L : Int := Int.fdiv ((klog2 m : Int) + e') 2
      let E2 : Int := e' + 46 - 2 * L
      let n' : Nat :=
        if 0 ≤ E2 then
          let N := m * 2 ^ E2.toNat
          let r := ksqrt N
          if r * r + r < N then r + 1 else r
        else
          let t := ((-E2) / 2).toNat
          let c := ksqrt m
          let n0 := c / 2 ^ t
          let thr := (2 * n0 + 1) ^ 2 * 2 ^ (2 * t - 2)
          if thr < m then n0 + 1
          else if m < thr then n0
          else if n0 % 2 = 0 then n0 else n0 + 1
      let n'' : Nat := if n' = 2 ^ 24 then 2 ^ 23 else n'
      let L' : Int := if n' = 2 ^ 24 then L + 1 else L
      .fin false n'' (L' - 23)

/-- IEEE equality (`==` on `f32`): NaN is not equal to anything, and the two
zeros are equal; otherwise canonical representations are compared. -/
def F32.beq : F32 → F32 → Bool
  | .fin s m e, .fin t n f => (m == 0 && n == 0) || (s == t && m == n && e == f)
  | .inf s, .inf t => s == t
  | _, _ => false

/-- IEEE inequality (`!=` on `f32`), the negation of `==`. -/
def F32.ne (x y : F32) : Bool := !(F32.beq x y)

/-- Is this value NaN? -/
def F32.isNaN : F32 → Bool
  | .nan => true
  | _ => false

/-- Is this value finite (neither NaN nor an infinity)? -/
def F32.isFinite : F32 → Bool
  | .fin _ _ _ => true
  | _ => false

/-- Is this value an infinity? -/
def F32.isInf : F32 → Bool
  | .inf _ => true
  | _ => false

/-- Is this value a (positive or negative) zero? -/
def F32.isZero : F32 → Bool
  | .fin _ 0 _ => true
  | _ => false

/-- Canonical-form invariant for model values: a finite value is either in
the subnormal position (`exp = -149`, mantissa below `2^24`) or a normal
number (`2^23 ≤ mantissa < 2^24`, `-149 < exp ≤ 104`).  All arithmetic
results satisfy it. -/
def F32.Wf : F32 → Prop
  | .nan => True
  | .inf _ => True
  | .fin _ n e => (e = -149 ∧ n < 2 ^ 24) ∨ (-149 < e ∧ e ≤ 104 ∧ 2 ^ 23 ≤ n ∧ n < 2 ^ 24)

/-- The f32 nearest to the nonnegative rational `p / q` (used for literals,
e.g. the Rust literal `0.6` is `lit 6 10`). -/
def lit (p q : Nat) : F32 := mkRounded false p q 0

/-- The f32 nearest to `-(p / q)`. -/
def litNeg (p q : Nat) : F32 := mkRounded true p q 0

/-- The f32 value `1.0`. -/
def f32one : F32 := lit 1 1

/-- The f32 value `-1.0`. -/
def negOne : F32 := litNeg 1 1

/-!
The vector operations.  The Rust source generates `Vec2`, `Vec3` and `Vec4`
from a single macro whose body is dimension-generic iterator code, so the
shared operations are embedded once over `List F32` (a `VecN` value is its
list of `N` components).  `Vec3` additionally gets `cross` and `sin`.
-/

/-- `dot`: `self.0.iter().zip(other.0.iter()).map(|(a, b)| a * b).sum()`;
`sum()` on `f32` folds from `0.0` with `+`. -/
def dot (a b : List F32) : F32 :=
  (List.zipWith F32.mul a b).foldl F32.add f32zero

/-- `magnitude`: `self.0.iter().fold(0.0, |sum, val| sum + val * val).sqrt()`. -/
def magnitude (l : List F32) : F32 :=
  (l.foldl (fun sum val => F32.add sum (F32.mul val val)) f32zero).sqrt

/-- `scalar_mult`: `self.0.map(|val| val * scale)`. -/
def scalar_mult (l : List F32) (scale : F32) : List F32 :=
  l.map (fun val => F32.mul val scale)

/-- `scalar_add`: `self.0.map(|val| val + num)`. -/
def scalar_add (l : List F32) (num : F32) : List F32 :=
  l.map (fun val => F32.add val num)

/-- `scalar_div`: `self.0.map(|val| val / scale)`. -/
def scalar_div (l : List F32) (scale : F32) : List F32 :=
  l.map (fun val => F32.div val scale)

/-- `scalar_sub`: `self.0.map(|val| val - num)`. -/
def scalar_sub (l : List F32) (num : F32) : List F32 :=
  l.map (fun val => F32.sub val num)

/-- `new()`: the all-zero vector of the same dimension. -/
def newVec (n : Nat) : List F32 := List.replicate n f32zero

/-- `normalise`: returns `new()` when the magnitude is `== 0.0`, otherwise
`scalar_mult(1.0 / magnitude)`. -/
def normalise (l : List F32) : List F32 :=
  let m := magnitude l
  if F32.beq m f32zero then newVec l.length
  else scalar_mult l (F32.div f32one m)

/-- `cos`: asserts both magnitudes are `!= 0.0` (a fatal assertion failure
otherwise, modelled as `Except.error` with the assertion message), then
returns `dot / (magnitude * magnitude)`. -/
def cos (a b : List F32) : Except String F32 :=
  if F32.ne (magnitude a) f32zero && F32.ne (magnitude b) f32zero then
    .ok (F32.div (dot a b) (F32.mul (magnitude a) (magnitude b)))
  else .error "Magnitude of one of the vectors is zero"

/-- Derived `PartialEq` on a vector: componentwise IEEE `==` on the arrays
(equal length and equal components). -/
def listEq (a b : List F32) : Bool :=
  a.length == b.length && (List.zipWith F32.beq a b).all id

/-- The `Vec3` type: three f32 components, indices 0, 1, 2. -/
structure Vec3 where
  c0 : F32
  c1 : F32
  c2 : F32
deriving DecidableEq, Repr

/-- The components of a `Vec3` as a list, for the dimension-generic operations. -/
def Vec3.toList (v : Vec3) : List F32 := [v.c0, v.c1, v.c2]

/-- `Vec3::new()`: `[0.0; 3]`. -/
def Vec3.new : Vec3 := ⟨f32zero, f32zero, f32zero⟩

/-- `Vec3::magnitude`. -/
def Vec3.magnitude (v : Vec3) : F32 := RustMath.magnitude v.toList

/-- `Vec3::scalar_mult`. -/
def Vec3.scalar_mult (v : Vec3) (scale : F32) : Vec3 :=
  ⟨F32.mul v.c0 scale, F32.mul v.c1 scale, F32.mul v.c2 scale⟩

/-- `Vec3::cross`:
`[self[1]*other[2] - self[2]*other[1], other[0]*self[2] - self[0]*other[2],
self[0]*other[1] - other[0]*self[1]]`. -/
def Vec3.cross (a b : Vec3) : Vec3 :=
  ⟨F32.sub (F32.mul a.c1 b.c2) (F32.mul a.c2 b.c1),
   F32.sub (F32.mul b.c0 a.c2) (F32.mul a.c0 b.c2),
   F32.sub (F32.mul a.c0 b.c1) (F32.mul b.c0 a.c1)⟩

/-- `Vec3::sin`: same assertion as `cos`, then
`self.cross(other).magnitude() / (self.magnitude() * other.magnitude())`. -/
def Vec3.sin (a b : Vec3) : Except String F32 :=
  if F32.ne a.magnitude f32zero && F32.ne b.magnitude f32zero then
    .ok (F32.div (a.cross b).magnitude (F32.mul a.magnitude b.magnitude))
  else .error "Magnitude of one of the vectors is zero"

/-- Derived `PartialEq` on `Vec3`: componentwise IEEE `==`. -/
def Vec3.beq (a b : Vec3) : Bool :=
  F32.beq a.c0 b.c0 && F32.beq a.c1 b.c1 && F32.beq a.c2 b.c2

instance : DecidableEq (Except String F32)
  | .error a, .error b =>
    if h : a = b then isTrue (h ▸ rfl) else isFalse fun hc => h (Except.noConfusion hc id)
  | .error _, .ok _ => isFalse fun hc => Except.noConfusion hc
  | .ok _, .error _ => isFalse fun hc => Except.noConfusion hc
  | .ok a, .ok b =>
    if h : a = b then isTrue (h ▸ rfl) else isFalse fun hc => h (Except.noConfusion hc id)

/-! ### Basic lemmas about the f32 model -/

lemma log2Aux_eq (fuel n : Nat) (h : n ≤ fuel) : log2Aux fuel n = Nat.log2 n := by
  induction fuel generalizing n with
  | zero =>
    have hn : n = 0 := Nat.le_zero.mp h
    subst hn
    rw [Nat.log2]
    rfl
  | succ f ih =>
    rw [log2Aux, Nat.log2]
    by_cases h2 : 2 ≤ n
    · rw [if_pos h2, if_pos h2, ih (n / 2) (by omega)]
    · rw [if_neg h2, if_neg h2]

lemma klog2_eq (n : Nat) : klog2 n = Nat.log2 n := log2Aux_eq n n (Nat.le_refl n)

lemma F32.mul_comm (x y : F32) : F32.mul x y = F32.mul y x := by
  cases x <;> cases y <;>
    simp [F32.mul, Bool.xor_comm, Nat.mul_comm, Int.add_comm]

lemma F32.beq_refl {x : F32} (h : x.isNaN = false) : F32.beq x x = true := by
  cases x with
  | nan => simp [F32.isNaN] at h
  | inf s => simp [F32.beq]
  | fin s n e => simp [F32.beq]

lemma F32.mul_nan_left (y : F32) : F32.mul .nan y = .nan := by cases y <;> rfl

lemma F32.mul_nan_right (x : F32) : F32.mul x .nan = .nan := by cases x <;> rfl

lemma F32.div_nan_right (x : F32) : F32.div x .nan = .nan := by cases x <;> rfl

lemma F32.isNaN_iff {x : F32} : x.isNaN = true ↔ x = .nan := by
  cases x <;> simp [F32.isNaN]

lemma finScaled_not (s : Bool) (m k : Nat) : finScaled (!s) m k = -(finScaled s m k) := by
  cases s <;> simp [finScaled]

lemma F32.sub_self {p : F32} (h : p.isFinite = true) : F32.sub p p = f32zero := by
  cases p with
  | nan => simp [F32.isFinite] at h
  | inf s => simp [F32.isFinite] at h
  | fin s n e =>
    show addS (finScaled s n (e - min e e).toNat + finScaled (!s) n (e - min e e).toNat)
      (min e e) s (!s) = f32zero
    rw [addS, if_pos (by rw [finScaled_not]; ring)]
    cases s <;> rfl

/-! ### Claim C1: the zero-magnitude assertion in `cos` and `sin` -/

/-- C1: `cos` (any dimension) and `Vec3::sin` fail with the fatal assertion
message "Magnitude of one of the vectors is zero" exactly when at least one
operand's magnitude is IEEE-equal to `0.0`; when both magnitudes are non-zero
no failure is raised (an `ok` value is returned). -/
theorem cos_sin_assert_iff :
    (∀ a b : List F32,
      (cos a b = Except.error "Magnitude of one of the vectors is zero" ↔
        F32.beq (magnitude a) f32zero = true ∨ F32.beq (magnitude b) f32zero = true)) ∧
    (∀ a b : Vec3,
      (Vec3.sin a b = Except.error "Magnitude of one of the vectors is zero" ↔
        F32.beq a.magnitude f32zero = true ∨ F32.beq b.magnitude f32zero = true)) ∧
    (∀ a b : List F32, F32.beq (magnitude a) f32zero = false →
      F32.beq (magnitude b) f32zero = false → ∃ r, cos a b = Except.ok r) ∧
    (∀ a b : Vec3, F32.beq a.magnitude f32zero = false →
      F32.beq b.magnitude f32zero = false → ∃ r, Vec3.sin a b = Except.ok r) := by
  refine ⟨?_, ?_, ?_, ?_⟩
  · intro a b
    cases h1 : F32.beq (magnitude a) f32zero <;>
      cases h2 : F32.beq (magnitude b) f32zero <;>
        simp [cos, F32.ne, h1, h2]
  · intro a b
    cases h1 : F32.beq a.magnitude f32zero <;>
      cases h2 : F32.beq b.magnitude f32zero <;>
        simp [Vec3.sin, F32.ne, h1, h2]
  · intro a b h1 h2
    exact ⟨F32.div (dot a b) (F32.mul (magnitude a) (magnitude b)),
      by simp [cos, F32.ne, h1, h2]⟩
  · intro a b h1 h2
    exact ⟨F32.div ((a.cross b).magnitude) (F32.mul a.magnitude b.magnitude),
      by simp [Vec3.sin, F32.ne, h1, h2]⟩

theorem cos_sin_assert_iff_witness :
    cos [f32zero, f32zero, f32zero] [lit 3 1, lit 2 1, lit 1 1] =
      Except.error "Magnitude of one of the vectors is zero" ∧
    (∃ r, Vec3.sin ⟨lit 1 1, lit 2 1, lit 3 1⟩ ⟨lit 3 1, lit 2 1, lit 1 1⟩ =
      Except.ok r) :=
  ⟨(cos_sin_assert_iff.1 _ _).mpr (Or.inl (by decide)),
   cos_sin_assert_iff.2.2.2 _ _ (by decide) (by decide)⟩

/-! ### Claim C2: `normalise` of a zero-magnitude vector -/

lemma sumsq_replicate_zero (n : Nat) :
    (List.replicate n f32zero).foldl
      (fun sum val => F32.add sum (F32.mul val val)) f32zero = f32zero := by
  induction n with
  | zero => rfl
  | succ k ih =>
    rw [List.replicate_succ, List.foldl_cons]
    have h : F32.add f32zero (F32.mul f32zero f32zero) = f32zero := by decide
    rw [h, ih]

/-- C2: whenever the computed magnitude is IEEE-equal to `0.0`, `normalise`
returns the all-zero vector of the same dimension, with no error; in
particular `normalise` of the zero vector `new()` is the zero vector. -/
theorem normalise_zero_vector :
    (∀ l : List F32, F32.beq (magnitude l) f32zero = true →
      normalise l = newVec l.length) ∧
    (∀ n : Nat, normalise (newVec n) = newVec n) := by
  constructor
  · intro l h
    simp [normalise, h]
  · intro n
    have hm : magnitude (List.replicate n f32zero) = f32zero := by
      unfold magnitude
      rw [sumsq_replicate_zero]
      decide
    have hz : F32.beq f32zero f32zero = true := by decide
    simp [normalise, newVec, hm, hz]

theorem normalise_zero_vector_witness :
    normalise [F32.fin false (2 ^ 23) (-103), f32zero] = newVec 2 :=
  normalise_zero_vector.1 [F32.fin false (2 ^ 23) (-103), f32zero] (by decide)

/-! ### Claim C4: the cross product formula -/

/-- C4: `cross` computes the components the source writes
(`a.y*b.z - a.z*b.y`, `b.x*a.z - a.x*b.z`, `a.x*b.y - b.x*a.y`), which agree
with the standard definition `(a2*b3 - a3*b2, a3*b1 - a1*b3, a1*b2 - a2*b1)`
because IEEE multiplication is commutative; in particular
`cross([1,2,3], [3,2,1]) = [-4, 8, -4]`. -/
theorem cross_components :
    (∀ a b : Vec3, a.cross b =
      ⟨F32.sub (F32.mul a.c1 b.c2) (F32.mul a.c2 b.c1),
       F32.sub (F32.mul a.c2 b.c0) (F32.mul a.c0 b.c2),
       F32.sub (F32.mul a.c0 b.c1) (F32.mul a.c1 b.c0)⟩) ∧
    Vec3.cross ⟨lit 1 1, lit 2 1, lit 3 1⟩ ⟨lit 3 1, lit 2 1, lit 1 1⟩ =
      ⟨litNeg 4 1, lit 8 1, litNeg 4 1⟩ := by
  constructor
  · intro a b
    unfold Vec3.cross
    rw [F32.mul_comm b.c0 a.c2, F32.mul_comm b.c0 a.c1]
  · decide

/-! ### Claim C6: the value of `cos` -/

/-- C6: when both magnitudes are non-zero, `cos` returns
`dot / (magnitude * magnitude)` (every operation rounded in binary32); in
particular `cos([1,2,3], [3,2,1])` is exactly the f32 nearest `0.7142857`. -/
theorem cos_formula_and_value :
    (∀ a b : List F32, F32.beq (magnitude a) f32zero = false →
      F32.beq (magnitude b) f32zero = false →
      cos a b = Except.ok (F32.div (dot a b)
        (F32.mul (magnitude a) (magnitude b)))) ∧
    cos [lit 1 1, lit 2 1, lit 3 1] [lit 3 1, lit 2 1, lit 1 1] =
      Except.ok (lit 7142857 10000000) := by
  constructor
  · intro a b h1 h2
    simp [cos, F32.ne, h1, h2]
  · decide

theorem cos_formula_and_value_witness :
    cos [lit 1 1, lit 2 1, lit 3 1] [lit 3 1, lit 2 1, lit 1 1] =
      Except.ok (F32.div (dot [lit 1 1, lit 2 1, lit 3 1] [lit 3 1, lit 2 1, lit 1 1])
        (F32.mul (magnitude [lit 1 1, lit 2 1, lit 3 1])
          (magnitude [lit 3 1, lit 2 1, lit 1 1]))) :=
  cos_formula_and_value.1 _ _ (by decide) (by decide)

/-! ### Claim C8: the scalar operations, `dot` and `cross` never fail -/

/-- C8: the scalar operations are total maps over the components (they always
return a vector of the same dimension; in this embedding only `cos` and `sin`
can fail), and dividing by a scalar IEEE-equal to `0.0` produces only
infinite or NaN components rather than an error; in particular
`[1.0, -1.0, 0.0] / 0.0 = [inf, -inf, NaN]`. -/
theorem scalar_ops_total_and_div_zero :
    (∀ (l : List F32) (k : F32),
      (scalar_mult l k).length = l.length ∧ (scalar_add l k).length = l.length ∧
      (scalar_div l k).length = l.length ∧ (scalar_sub l k).length = l.length) ∧
    (∀ (l : List F32) (k : F32), F32.beq k f32zero = true →
      ∀ c ∈ scalar_div l k, (F32.isInf c || F32.isNaN c) = true) ∧
    scalar_div [f32one, litNeg 1 1, f32zero] f32zero =
      [F32.inf false, F32.inf true, F32.nan] := by
  refine ⟨?_, ?_, by decide⟩
  · intro l k
    refine ⟨?_, ?_, ?_, ?_⟩ <;> simp [scalar_mult, scalar_add, scalar_div, scalar_sub]
  · intro l k hk c hc
    obtain ⟨t, e0, rfl⟩ : ∃ t e, k = F32.fin t 0 e := by
      cases k with
      | nan => simp [F32.beq, f32zero] at hk
      | inf s => simp [F32.beq, f32zero] at hk
      | fin t n e =>
        have hn : n = 0 := by
          simp [F32.beq, f32zero] at hk
          tauto
        exact ⟨t, e, by rw [hn]⟩
    simp only [scalar_div, List.mem_map] at hc
    obtain ⟨v, _, rfl⟩ := hc
    cases v with
    | nan => rfl
    | inf u => rfl
    | fin u m g =>
      by_cases hm : m = 0 <;> simp [F32.div, hm, F32.isInf, F32.isNaN]

theorem scalar_ops_total_and_div_zero_witness :
    (F32.isInf (F32.div f32one f32zero) || F32.isNaN (F32.div f32one f32zero)) = true :=
  scalar_ops_total_and_div_zero.2.1 [f32one] f32zero (by decide)
    (F32.div f32one f32zero) (by simp [scalar_div])

/-! ### Claim C10: `cross` of a vector with itself -/

/-- C10: for a 3-vector with finite components whose pairwise component
products are finite, `v.cross(v)` is the all-zero vector: each component is
the IEEE difference of two identical finite products, which is `+0.0`. -/
theorem cross_self_eq_zero :
    ∀ v : Vec3, v.c0.isFinite = true → v.c1.isFinite = true → v.c2.isFinite = true →
      (F32.mul v.c1 v.c2).isFinite = true → (F32.mul v.c0 v.c2).isFinite = true →
      (F32.mul v.c0 v.c1).isFinite = true →
      v.cross v = Vec3.new := by
  intro v h0 h1 h2 h12 h02 h01
  unfold Vec3.cross Vec3.new
  rw [F32.mul_comm v.c2 v.c1]
  rw [F32.sub_self h12, F32.sub_self h02, F32.sub_self h01]

theorem cross_self_eq_zero_witness :
    Vec3.cross ⟨lit 1 1, lit 2 1, lit 3 1⟩ ⟨lit 1 1, lit 2 1, lit 3 1⟩ = Vec3.new :=
  cross_self_eq_zero ⟨lit 1 1, lit 2 1, lit 3 1⟩ (by decide) (by decide) (by decide)
    (by decide) (by decide) (by decide)

/-! ### Claim C3: `normalise` and unit magnitude -/

/-- C3 counterexample: `[2^-80, 0.0]` is not the zero vector, yet the square
of `2^-80` underflows to `0.0`, so the computed magnitude is `0.0`,
`normalise` returns the zero vector, and the result's magnitude is not
`1.0`. -/
theorem normalise_unit_magnitude_cex :
    ([F32.fin false (2 ^ 23) (-103), f32zero] ≠ newVec 2) ∧
    F32.beq (magnitude (normalise [F32.fin false (2 ^ 23) (-103), f32zero]))
      f32one = false := by
  constructor
  · decide
  · decide

/-- C3 amended: whenever the computed magnitude is not IEEE-equal to `0.0`,
`normalise` returns `scale(1.0 / magnitude)`; the result does not always have
magnitude exactly `1.0` (squared components can underflow so that a non-zero
vector has computed magnitude `0.0` and normalises to the zero vector), but in
particular `normalise([3,4]) = [0.6, 0.8]`, whose magnitude is exactly
`1.0`. -/
theorem normalise_scale_and_example :
    (∀ l : List F32, F32.beq (magnitude l) f32zero = false →
      normalise l = scalar_mult l (F32.div f32one (magnitude l))) ∧
    normalise [lit 3 1, lit 4 1] = [lit 6 10, lit 8 10] ∧
    F32.beq (magnitude [lit 6 10, lit 8 10]) f32one = true := by
  refine ⟨?_, by decide, by decide⟩
  intro l h
  simp [normalise, h]

theorem normalise_scale_and_example_witness :
    normalise [lit 3 1, lit 4 1] =
      scalar_mult [lit 3 1, lit 4 1] (F32.div f32one (magnitude [lit 3 1, lit 4 1])) :=
  normalise_scale_and_example.1 _ (by decide)

/-! ### Claim C9: NaN magnitudes and the assertion -/

/-- C9 counterexample: the first operand has NaN magnitude, but the second
operand's magnitude is `0.0`, so the fatal assertion still fires — having a
NaN magnitude on one side does not by itself prevent the error. -/
theorem nan_magnitude_assert_cex :
    F32.isNaN (magnitude [F32.nan, f32zero, f32zero]) = true ∧
    cos [F32.nan, f32zero, f32zero] [f32zero, f32zero, f32zero] =
      Except.error "Magnitude of one of the vectors is zero" := by
  constructor
  · decide
  · decide

/-- C9 amended: a NaN magnitude never compares IEEE-equal to `0.0`, so if one
operand's magnitude is NaN and the other's is not IEEE-equal to `0.0`, the
assertion in `cos` (and in `Vec3::sin`) does not fire and the returned value
is NaN; the error is raised only when an operand's magnitude is IEEE-equal to
`0.0`. -/
theorem nan_magnitude_no_assert :
    (∀ a b : List F32,
      (F32.isNaN (magnitude a) = true ∨ F32.isNaN (magnitude b) = true) →
      F32.beq (magnitude a) f32zero = false → F32.beq (magnitude b) f32zero = false →
      cos a b = Except.ok F32.nan) ∧
    (∀ a b : Vec3,
      (F32.isNaN a.magnitude = true ∨ F32.isNaN b.magnitude = true) →
      F32.beq a.magnitude f32zero = false → F32.beq b.magnitude f32zero = false →
      Vec3.sin a b = Except.ok F32.nan) := by
  constructor
  · intro a b hnan h1 h2
    simp only [cos, F32.ne, h1, h2, Bool.not_false, Bool.and_self, if_true]
    rcases hnan with h | h
    · rw [F32.isNaN_iff.mp h, F32.mul_nan_left, F32.div_nan_right]
    · rw [F32.isNaN_iff.mp h, F32.mul_nan_right, F32.div_nan_right]
  · intro a b hnan h1 h2
    simp only [Vec3.sin, F32.ne, h1, h2, Bool.not_false, Bool.and_self, if_true]
    rcases hnan with h | h
    · rw [F32.isNaN_iff.mp h, F32.mul_nan_left, F32.div_nan_right]
    · rw [F32.isNaN_iff.mp h, F32.mul_nan_right, F32.div_nan_right]

theorem nan_magnitude_no_assert_witness :
    cos [F32.nan, f32zero, f32zero] [lit 1 1, f32zero, f32zero] =
      Except.ok F32.nan :=
  nan_magnitude_no_assert.1 _ _ (Or.inl (by decide)) (by decide) (by decide)

/-! ### Claim C7: symmetry of `dot` -/

/-- C7 counterexample: with components `[inf, 0]` and `[0, inf]` both dot
products are NaN, and NaN is not IEEE-equal to itself, so `a.dot(b) ==
b.dot(a)` evaluates to `false`. -/
theorem dot_symm_cex :
    F32.beq (dot [F32.inf false, f32zero] [f32zero, F32.inf false])
      (dot [f32zero, F32.inf false] [F32.inf false, f32zero]) = false := by
  decide

/-- C7 amended: `dot a b` and `dot b a` always return the identical value
(IEEE multiplication of the model is commutative and the summation order is
the same), and the IEEE comparison `a.dot(b) == b.dot(a)` is `true` whenever
that value is not NaN (it is `false` when it is NaN). -/
theorem dot_symm :
    (∀ a b : List F32, dot a b = dot b a) ∧
    (∀ a b : List F32, (dot a b).isNaN = false →
      F32.beq (dot a b) (dot b a) = true) := by
  have h : ∀ a b : List F32, dot a b = dot b a := by
    intro a b
    unfold dot
    rw [List.zipWith_comm_of_comm F32.mul F32.mul_comm]
  exact ⟨h, fun a b hn => by rw [← h a b]; exact F32.beq_refl hn⟩

theorem dot_symm_witness :
    F32.beq (dot [lit 1 1, lit 2 1] [lit 3 1, lit 4 1])
      (dot [lit 3 1, lit 4 1] [lit 1 1, lit 2 1]) = true :=
  dot_symm.2 _ _ (by decide)

/-! ### Canonicity and exactness lemmas for the rounding pipeline -/

lemma rndNat_one (x : Nat) : rndNat x 1 = x := by
  simp [rndNat, Nat.mod_one, Nat.div_one]

lemma rndNat_eq_div_or (p q : Nat) : rndNat p q = p / q ∨ rndNat p q = p / q + 1 := by
  simp only [rndNat]
  split_ifs <;> simp

lemma rndNat_exact (p q : Nat) (hq : 0 < q) (h : q ∣ p) : rndNat p q = p / q := by
  obtain ⟨c, rfl⟩ := h
  simp only [rndNat]
  rw [Nat.mul_mod_right]
  simp [hq]

lemma ratLog2_one (p : Nat) (hp : p ≠ 0) : ratLog2 p 1 = (Nat.log2 p : Int) := by
  unfold ratLog2
  simp only [klog2_eq]
  have h1 : Nat.log2 1 = 0 := by
    rw [Nat.log2]
    rfl
  rw [h1]
  have h2 : 1 * 2 ^ Nat.log2 p ≤ p * 2 ^ 0 := by
    simpa using Nat.log2_self_le hp
  rw [if_pos h2]
  simp

lemma log2_mul_pow (n k : Nat) (hn : n ≠ 0) : Nat.log2 (n * 2 ^ k) = Nat.log2 n + k := by
  have hpow : 0 < 2 ^ k := Nat.pos_pow_of_pos k (by norm_num)
  have hmz : n * 2 ^ k ≠ 0 := Nat.mul_ne_zero hn hpow.ne'
  apply Nat.le_antisymm
  · have hstep : 2 ^ (Nat.log2 n + 1) * 2 ^ k = 2 ^ (Nat.log2 n + k + 1) := by
      rw [← pow_add]
      congr 1
      omega
    have hlt : n * 2 ^ k < 2 ^ (Nat.log2 n + k + 1) := by
      rw [← hstep]
      exact (Nat.mul_lt_mul_right hpow).mpr Nat.lt_log2_self
    have := (Nat.log2_lt hmz).mpr hlt
    omega
  · apply (Nat.le_log2 hmz).mpr
    rw [pow_add]
    exact Nat.mul_le_mul_right _ (Nat.log2_self_le hn)

lemma neg_mkFromN (s : Bool) (n : Nat) (T : Int) :
    F32.neg (mkFromN s n T) = mkFromN (!s) n T := by
  simp only [mkFromN]
  split_ifs <;> rfl

lemma neg_mkRounded (s : Bool) (p q : Nat) (e : Int) :
    F32.neg (mkRounded s p q e) = mkRounded (!s) p q e := by
  unfold mkRounded
  split_ifs with h
  · rfl
  · exact neg_mkFromN _ _ _

lemma mkFromN_wf (s : Bool) (n : Nat) (T : Int)
    (h : (2 ^ 23 ≤ n ∧ n ≤ 2 ^ 24 ∧ -149 ≤ T) ∨ (n ≤ 2 ^ 23 ∧ T = -149)) :
    (mkFromN s n T).Wf := by
  simp only [mkFromN]
  rcases h with ⟨h1, h2, h3⟩ | ⟨h1, h2⟩
  · by_cases hc : n = 2 ^ 24
    · rw [if_pos hc, if_pos hc]
      split_ifs with h4
      · trivial
      · simp only [F32.Wf]
        right
        refine ⟨by omega, by omega, by norm_num, by norm_num⟩
    · rw [if_neg hc, if_neg hc]
      split_ifs with h4
      · trivial
      · simp only [F32.Wf]
        by_cases hT : T = -149
        · left
          exact ⟨hT, by omega⟩
        · right
          exact ⟨by omega, by omega, h1, by omega⟩
  · have hc : n ≠ 2 ^ 24 := by omega
    rw [if_neg hc, if_neg hc]
    rw [if_neg (by omega : ¬ (104 < T))]
    simp only [F32.Wf]
    left
    exact ⟨h2, by omega⟩

lemma mkRounded_one_wf (s : Bool) (p : Nat) (e : Int) : (mkRounded s p 1 e).Wf := by
  unfold mkRounded
  split_ifs with hp
  · simp [F32.Wf]
  · have hrl : ratLog2 p 1 = (Nat.log2 p : Int) := ratLog2_one p hp
    have hp1 : 2 ^ Nat.log2 p ≤ p := Nat.log2_self_le hp
    have hp2 : p < 2 ^ (Nat.log2 p + 1) := Nat.lt_log2_self
    by_cases hL : -126 ≤ ratLog2 p 1 + e
    · -- normal branch
      have hT : targetExp p 1 e = (Nat.log2 p : Int) + e - 23 := by
        unfold targetExp
        rw [if_pos hL, hrl]
      have hTlb : -149 ≤ targetExp p 1 e := by
        rw [hT]
        rw [hrl] at hL
        omega
      by_cases hlp : Nat.log2 p ≤ 23
      · have h0 : 0 ≤ e - targetExp p 1 e := by rw [hT]; omega
        have hshn : (e - targetExp p 1 e).toNat = 23 - Nat.log2 p := by rw [hT]; omega
        have hn : roundedMant p 1 e = p * 2 ^ (23 - Nat.log2 p) := by
          unfold roundedMant
          rw [if_pos h0, hshn, rndNat_one]
        apply mkFromN_wf
        left
        refine ⟨?_, ?_, hTlb⟩
        · rw [hn]
          have hq1 : 2 ^ Nat.log2 p * 2 ^ (23 - Nat.log2 p) = 2 ^ 23 := by
            rw [← pow_add]
            congr 1
            omega
          rw [← hq1]
          exact Nat.mul_le_mul_right _ hp1
        · rw [hn]
          have hlt : p * 2 ^ (23 - Nat.log2 p) < 2 ^ (Nat.log2 p + 1) * 2 ^ (23 - Nat.log2 p) :=
            (Nat.mul_lt_mul_right (Nat.pos_pow_of_pos _ (by norm_num))).mpr hp2
          have heq : 2 ^ (Nat.log2 p + 1) * 2 ^ (23 - Nat.log2 p) = 2 ^ 24 := by
            rw [← pow_add]
            congr 1
            omega
          omega
      · have h0 : ¬ (0 ≤ e - targetExp p 1 e) := by rw [hT]; omega
        have hshn : (-(e - targetExp p 1 e)).toNat = Nat.log2 p - 23 := by rw [hT]; omega
        have hn : roundedMant p 1 e = rndNat p (2 ^ (Nat.log2 p - 23)) := by
          unfold roundedMant
          rw [if_neg h0, hshn, one_mul]
        have hqpos : 0 < 2 ^ (Nat.log2 p - 23) := Nat.pos_pow_of_pos _ (by norm_num)
        have hd1 : 2 ^ 23 ≤ p / 2 ^ (Nat.log2 p - 23) := by
          rw [Nat.le_div_iff_mul_le hqpos]
          have hq1 : 2 ^ 23 * 2 ^ (Nat.log2 p - 23) = 2 ^ Nat.log2 p := by
            rw [← pow_add]
            congr 1
            omega
          rw [hq1]
          exact hp1
        have hd2 : p / 2 ^ (Nat.log2 p - 23) < 2 ^ 24 := by
          rw [Nat.div_lt_iff_lt_mul hqpos]
          have hq2 : 2 ^ 24 * 2 ^ (Nat.log2 p - 23) = 2 ^ (Nat.log2 p + 1) := by
            rw [← pow_add]
            congr 1
            omega
          rw [hq2]
          exact hp2
        apply mkFromN_wf
        left
        rcases rndNat_eq_div_or p (2 ^ (Nat.log2 p - 23)) with hr | hr <;>
          rw [hn, hr] <;> exact ⟨by omega, by omega, hTlb⟩
    · -- subnormal branch
      have hT : targetExp p 1 e = -149 := by
        unfold targetExp
        rw [if_neg hL]
      have hLe : (Nat.log2 p : Int) + e ≤ -127 := by
        rw [hrl] at hL
        omega
      apply mkFromN_wf
      right
      refine ⟨?_, hT⟩
      by_cases h0 : 0 ≤ e - targetExp p 1 e
      · have hn : roundedMant p 1 e = p * 2 ^ (e - targetExp p 1 e).toNat := by
          unfold roundedMant
          rw [if_pos h0, rndNat_one]
        rw [hn]
        have hbound : p * 2 ^ (e - targetExp p 1 e).toNat < 2 ^ 23 := by
          have hk : (Nat.log2 p + 1) + (e - targetExp p 1 e).toNat ≤ 23 := by
            rw [hT] at h0 ⊢
            omega
          have h1 : p * 2 ^ (e - targetExp p 1 e).toNat <
              2 ^ (Nat.log2 p + 1) * 2 ^ (e - targetExp p 1 e).toNat :=
            (Nat.mul_lt_mul_right (Nat.pos_pow_of_pos _ (by norm_num))).mpr hp2
          have h2 : 2 ^ (Nat.log2 p + 1) * 2 ^ (e - targetExp p 1 e).toNat =
              2 ^ (Nat.log2 p + 1 + (e - targetExp p 1 e).toNat) := (pow_add 2 _ _).symm
          have h3 : (2:Nat) ^ (Nat.log2 p + 1 + (e - targetExp p 1 e).toNat) ≤ 2 ^ 23 :=
            Nat.pow_le_pow_right (by norm_num) hk
          omega
        omega
      · have hn : roundedMant p 1 e = rndNat p (2 ^ (-(e - targetExp p 1 e)).toNat) := by
          unfold roundedMant
          rw [if_neg h0, one_mul]
        have hqpos : 0 < 2 ^ (-(e - targetExp p 1 e)).toNat :=
          Nat.pos_pow_of_pos _ (by norm_num)
        have hd : p / 2 ^ (-(e - targetExp p 1 e)).toNat < 2 ^ 23 := by
          rw [Nat.div_lt_iff_lt_mul hqpos]
          have hk : Nat.log2 p + 1 ≤ 23 + (-(e - targetExp p 1 e)).toNat := by
            rw [hT] at h0 ⊢
            omega
          have h1 : (2:Nat) ^ (Nat.log2 p + 1) ≤ 2 ^ (23 + (-(e - targetExp p 1 e)).toNat) :=
            Nat.pow_le_pow_right (by norm_num) hk
          have h2 : (2:Nat) ^ (23 + (-(e - targetExp p 1 e)).toNat) =
              2 ^ 23 * 2 ^ (-(e - targetExp p 1 e)).toNat := pow_add 2 _ _
          omega
        rw [hn]
        rcases rndNat_eq_div_or p (2 ^ (-(e - targetExp p 1 e)).toNat) with hr | hr <;>
          rw [hr] <;> omega

lemma mkRounded_exact (s : Bool) (n : Nat) (e : Int)
    (hwf : (F32.fin s n e).Wf) (hn : n ≠ 0) :
    mkRounded s (n * 2 ^ 23) 1 (e - 23) = .fin s n e := by
  have hp : n * 2 ^ 23 ≠ 0 :=
    Nat.mul_ne_zero hn (Nat.pos_pow_of_pos 23 (by norm_num)).ne'
  unfold mkRounded
  rw [if_neg hp]
  have hrl : ratLog2 (n * 2 ^ 23) 1 = (Nat.log2 (n * 2 ^ 23) : Int) := ratLog2_one _ hp
  rw [log2_mul_pow n 23 hn] at hrl
  simp only [F32.Wf] at hwf
  have hT : targetExp (n * 2 ^ 23) 1 (e - 23) = e := by
    rcases hwf with ⟨he, hn24⟩ | ⟨he1, he2, hn23, hn24⟩
    · subst he
      by_cases h23 : 2 ^ 23 ≤ n
      · have hlog : Nat.log2 n = 23 := by
          have hu := (Nat.log2_lt hn).mpr hn24
          have hl := (Nat.le_log2 hn).mpr h23
          omega
        unfold targetExp
        rw [hrl, hlog]
        rw [if_pos (by norm_num)]
        norm_num
      · have hlog : Nat.log2 n < 23 := (Nat.log2_lt hn).mpr (by omega)
        unfold targetExp
        rw [hrl]
        rw [if_neg (by push_cast; omega)]
    · have hlog : Nat.log2 n = 23 := by
        have hu := (Nat.log2_lt hn).mpr hn24
        have hl := (Nat.le_log2 hn).mpr hn23
        omega
      unfold targetExp
      rw [hrl, hlog]
      rw [if_pos (by push_cast; omega)]
      push_cast
      omega
  have hsh : ¬ (0 ≤ (e - 23) - targetExp (n * 2 ^ 23) 1 (e - 23)) := by
    rw [hT]
    omega
  have htn : (-((e - 23) - targetExp (n * 2 ^ 23) 1 (e - 23))).toNat = 23 := by
    rw [hT]
    omega
  have hmant : roundedMant (n * 2 ^ 23) 1 (e - 23) = n := by
    unfold roundedMant
    rw [if_neg hsh, htn, one_mul]
    rw [rndNat_exact _ _ (Nat.pos_pow_of_pos _ (by norm_num)) ⟨n, by ring⟩]
    exact Nat.mul_div_cancel n (Nat.pos_pow_of_pos _ (by norm_num))
  rw [hmant, hT]
  have h24 : n ≠ 2 ^ 24 := by
    rcases hwf with ⟨_, h⟩ | ⟨_, _, _, h⟩ <;> omega
  have h104 : ¬ (104 < e) := by
    rcases hwf with ⟨he, _⟩ | ⟨_, he2, _, _⟩ <;> omega
  simp only [mkFromN]
  rw [if_neg h24, if_neg h24, if_neg h104]

lemma addS_wf (S T : Int) (s t : Bool) : (addS S T s t).Wf := by
  unfold addS
  split_ifs with h
  · simp [F32.Wf]
  · exact mkRounded_one_wf _ _ _

lemma add_wf (x y : F32) : (F32.add x y).Wf := by
  cases x with
  | nan => cases y <;> exact trivial
  | inf s =>
    cases y with
    | nan => exact trivial
    | inf t =>
      simp only [F32.add]
      split_ifs <;> exact trivial
    | fin t n f => exact trivial
  | fin s m e =>
    cases y with
    | nan => exact trivial
    | inf t => exact trivial
    | fin t n f => exact addS_wf _ _ _ _

lemma sub_wf (x y : F32) : (F32.sub x y).Wf := by
  unfold F32.sub
  exact add_wf _ _

lemma addS_opp (S T : Int) (s t : Bool) :
    addS (-S) T (!t) (!s) = F32.neg (addS S T s t) ∨
    ((addS S T s t).isZero = true ∧ (addS (-S) T (!t) (!s)).isZero = true) := by
  unfold addS
  by_cases hz : S = 0
  · right
    rw [if_pos hz, if_pos (by omega)]
    exact ⟨rfl, rfl⟩
  · left
    rw [if_neg hz, if_neg (by omega : ¬ (-S = 0)), neg_mkRounded, Int.natAbs_neg]
    congr 1
    by_cases hlt : S < 0
    · have h2 : ¬ (-S < 0) := by omega
      simp [hlt, h2]
    · have h2 : -S < 0 := by omega
      simp [hlt, h2]

lemma add_fin_opp (s t : Bool) (m n : Nat) (e f : Int) :
    F32.add (F32.fin (!t) n f) (F32.fin (!s) m e) =
      F32.neg (F32.add (F32.fin s m e) (F32.fin t n f)) ∨
    ((F32.add (F32.fin s m e) (F32.fin t n f)).isZero = true ∧
     (F32.add (F32.fin (!t) n f) (F32.fin (!s) m e)).isZero = true) := by
  have h1 : F32.add (F32.fin s m e) (F32.fin t n f) =
      addS (finScaled s m (e - min e f).toNat + finScaled t n (f - min e f).toNat)
        (min e f) s t := rfl
  have h2 : F32.add (F32.fin (!t) n f) (F32.fin (!s) m e) =
      addS (-(finScaled s m (e - min e f).toNat + finScaled t n (f - min e f).toNat))
        (min e f) (!t) (!s) := by
    have h0 : F32.add (F32.fin (!t) n f) (F32.fin (!s) m e) =
        addS (finScaled (!t) n (f - min f e).toNat + finScaled (!s) m (e - min f e).toNat)
          (min f e) (!t) (!s) := rfl
    rw [h0, min_comm f e, finScaled_not, finScaled_not]
    congr 1
    ring
  rw [h1, h2]
  exact addS_opp _ _ s t

lemma sub_antisym (x y : F32) :
    F32.sub y x = F32.neg (F32.sub x y) ∨
    ((F32.sub x y).isZero = true ∧ (F32.sub y x).isZero = true) := by
  cases x with
  | nan => left; cases y <;> rfl
  | inf s =>
    cases y with
    | nan => left; rfl
    | inf t => cases s <;> cases t <;> exact Or.inl rfl
    | fin t n f => left; rfl
  | fin s m e =>
    cases y with
    | nan => left; rfl
    | inf t => left; cases t <;> rfl
    | fin t n f =>
      have h := add_fin_opp s (!t) m n e f
      rw [Bool.not_not] at h
      exact h

lemma isZero_elim {x : F32} (h : x.isZero = true) : ∃ s e, x = F32.fin s 0 e := by
  cases x with
  | nan => simp [F32.isZero] at h
  | inf s => simp [F32.isZero] at h
  | fin s n e =>
    cases n with
    | zero => exact ⟨s, e, rfl⟩
    | succ k => simp [F32.isZero] at h

lemma mul_neg_negOne_beq (c : F32) (hwf : c.Wf) (hnan : c.isNaN = false) :
    F32.beq c (F32.mul (F32.neg c) negOne) = true := by
  have hone : negOne = F32.fin true (2 ^ 23) (-23) := by decide
  cases c with
  | nan => simp [F32.isNaN] at hnan
  | inf s =>
    rw [hone]
    cases s <;> rfl
  | fin s n e =>
    by_cases hn : n = 0
    · subst hn
      rw [hone]
      have : F32.mul (F32.neg (F32.fin s 0 e)) (F32.fin true (2 ^ 23) (-23)) =
          mkRounded (xor (!s) true) (0 * 2 ^ 23) 1 (e + -23) := rfl
      rw [this]
      rw [mkRounded, if_pos (by norm_num)]
      rfl
    · rw [hone]
      have hmul : F32.mul (F32.neg (F32.fin s n e)) (F32.fin true (2 ^ 23) (-23)) =
          mkRounded (xor (!s) true) (n * 2 ^ 23) 1 (e + -23) := rfl
      rw [hmul]
      have hx : xor (!s) true = s := by cases s <;> rfl
      have he : e + -23 = e - 23 := by ring
      rw [hx, he, mkRounded_exact s n e hwf hn]
      exact F32.beq_refl (by simp [F32.isNaN])

lemma sub_negmul (p q : F32) (h : (F32.sub p q).isNaN = false) :
    F32.beq (F32.sub p q) (F32.mul (F32.sub q p) negOne) = true := by
  rcases sub_antisym p q with hs | ⟨hz1, hz2⟩
  · rw [hs]
    exact mul_neg_negOne_beq _ (sub_wf p q) h
  · obtain ⟨a, x, hx⟩ := isZero_elim hz1
    obtain ⟨b, y, hy⟩ := isZero_elim hz2
    rw [hx, hy]
    have hone : negOne = F32.fin true (2 ^ 23) (-23) := by decide
    rw [hone]
    have : F32.mul (F32.fin b 0 y) (F32.fin true (2 ^ 23) (-23)) =
        mkRounded (xor b true) (0 * 2 ^ 23) 1 (y + -23) := rfl
    rw [this, mkRounded, if_pos (by norm_num)]
    rfl

/-! ### Claim C5: anti-commutativity of `cross` -/

/-- C5 counterexample: with `v = [0, MAX, MAX]` the products in the first
component of `v.cross(v)` overflow to infinity, the subtraction `inf - inf`
is NaN, and NaN is not IEEE-equal to anything, so
`v.cross(v) == -1 * v.cross(v)` evaluates to `false`. -/
theorem cross_anticomm_cex :
    Vec3.beq
      (Vec3.cross ⟨f32zero, F32.fin false (2 ^ 24 - 1) 104, F32.fin false (2 ^ 24 - 1) 104⟩
        ⟨f32zero, F32.fin false (2 ^ 24 - 1) 104, F32.fin false (2 ^ 24 - 1) 104⟩)
      (Vec3.scalar_mult
        (Vec3.cross ⟨f32zero, F32.fin false (2 ^ 24 - 1) 104, F32.fin false (2 ^ 24 - 1) 104⟩
          ⟨f32zero, F32.fin false (2 ^ 24 - 1) 104, F32.fin false (2 ^ 24 - 1) 104⟩)
        negOne) = false := by
  decide

/-- C5 amended: whenever no component of `a.cross(b)` is NaN, the comparison
`a.cross(b) == -1 * b.cross(a)` holds (componentwise IEEE equality); the
claim fails only when a component is NaN, e.g. through overflow of the
products to `inf - inf`. -/
theorem cross_anticomm_nonnan :
    ∀ a b : Vec3,
      (a.cross b).c0.isNaN = false → (a.cross b).c1.isNaN = false →
      (a.cross b).c2.isNaN = false →
      Vec3.beq (a.cross b) ((b.cross a).scalar_mult negOne) = true := by
  intro a b h0 h1 h2
  dsimp only [Vec3.cross] at h0 h1 h2
  show (F32.beq (F32.sub (F32.mul a.c1 b.c2) (F32.mul a.c2 b.c1))
        (F32.mul (F32.sub (F32.mul b.c1 a.c2) (F32.mul b.c2 a.c1)) negOne) &&
      F32.beq (F32.sub (F32.mul b.c0 a.c2) (F32.mul a.c0 b.c2))
        (F32.mul (F32.sub (F32.mul a.c0 b.c2) (F32.mul b.c0 a.c2)) negOne) &&
      F32.beq (F32.sub (F32.mul a.c0 b.c1) (F32.mul b.c0 a.c1))
        (F32.mul (F32.sub (F32.mul b.c0 a.c1) (F32.mul a.c0 b.c1)) negOne)) = true
  rw [F32.mul_comm b.c1 a.c2, F32.mul_comm b.c2 a.c1]
  rw [Bool.and_eq_true, Bool.and_eq_true]
  exact ⟨⟨sub_negmul _ _ h0, sub_negmul _ _ h1⟩, sub_negmul _ _ h2⟩

theorem cross_anticomm_nonnan_witness :
    Vec3.beq (Vec3.cross ⟨lit 1 1, lit 2 1, lit 3 1⟩ ⟨lit 3 1, lit 2 1, lit 1 1⟩)
      ((Vec3.cross ⟨lit 3 1, lit 2 1, lit 1 1⟩ ⟨lit 1 1, lit 2 1, lit 3 1⟩).scalar_mult
        negOne) = true :=
  cross_anticomm_nonnan _ _ (by decide) (by decide) (by decide)

end RustMath
